import Mathlib

/-!
Shallow embedding of the `uabxautomate` asset-bundle extractor
(`src/main.rs`) and proofs about it.

Strings are modelled as `List Char` (`Str`).  External library
boundaries (the `new_string_template` template engine, the `regex`
crate, `std::fs`, the `unity_rs` archive parser) are modelled at their
documented interfaces; everything else is translated from the source.
-/

namespace Uabx

/-- Strings of the model: lists of characters. -/
abbrev Str := List Char

/-- Coerce a Lean string literal into the model's string type. -/
def chars (s : String) : Str := s.data

/-- `str.replace('\\', "/")` — path normalization used by `main`
(lines 290–294 and 366 of `src/main.rs`). -/
def normalize (s : Str) : Str := s.map (fun c => if c = '\\' then '/' else c)

/-- The three supported asset kinds (`SupportedAssetType`, lines 15–23). -/
inductive SupportedAssetType where
  | Sprite
  | Texture2D
  | TextAsset
deriving DecidableEq, Repr

/-! ### Template engine (`new_string_template` boundary)

`Template::new` compiles a template string into a sequence of literal
runs and `{placeholder}` holes; `render_nofail` substitutes holes whose
key is present in the map and leaves a hole whose key is absent in the
output verbatim (as the literal text `{key}`), never failing. -/

/-- One compiled segment of a template: a literal run or a placeholder hole. -/
inductive TemplateSeg where
  | lit (s : Str)
  | hole (name : Str)
deriving DecidableEq, Repr

/-- A compiled template (`new_string_template::template::Template`). -/
abbrev Template := List TemplateSeg

/-- The placeholder map built per item (lines 337–347): association list,
looked up by key. -/
abbrev PlaceholderMap := List (Str × Str)

/-- Key lookup in the placeholder map. -/
def lookupPlaceholder (m : PlaceholderMap) (k : Str) : Option Str :=
  (m.find? (fun p => p.1 = k)).map (fun p => p.2)

/-- Rendering of one template segment: a present key is substituted, an
absent key renders as the literal placeholder text. -/
def renderSeg (m : PlaceholderMap) : TemplateSeg → Str
  | .lit s => s
  | .hole n =>
    match lookupPlaceholder m n with
    | some v => v
    | none => '{' :: (n ++ ['}'])

/-- `Template::render_nofail` (called at line 356): total rendering of the
whole template. -/
def render_nofail (t : Template) (m : PlaceholderMap) : Str :=
  (t.map (renderSeg m)).flatten

/-- The placeholder names a template uses. -/
def templateHoles (t : Template) : List Str :=
  t.filterMap (fun s => match s with | .hole n => some n | .lit _ => none)

/-! ### Regular expressions (`regex` crate boundary)

The crate is modelled by a syntax tree and a backtracking matcher.
`mrun` lists the possible matches of a pattern at a position in
preference order (greedy repetition: a longer iteration is preferred,
as in the crate's leftmost-first semantics); `matchAt` takes the first.
`findFirst` scans positions left to right, so it returns the leftmost
match — this is `Regex::find`.  `is_match` is `Regex::is_match`, and
`regexReplace` is `Regex::replace`, which replaces only the leftmost
match and expands `$n` capture references in the replacement. -/

/-- Regular-expression syntax: empty, literal character, `.` (any
character except newline), concatenation, alternation, `*`, a numbered
capture group, `^` and `$` (whole-haystack anchors, multi-line off). -/
inductive Rx where
  | eps
  | ch (c : Char)
  | dot
  | cat (r₁ r₂ : Rx)
  | alt (r₁ r₂ : Rx)
  | star (r : Rx)
  | group (n : Nat) (r : Rx)
  | bol
  | eol
deriving DecidableEq, Repr

/-- Size of a pattern, used to bound the matcher's fuel. -/
def rxSize : Rx → Nat
  | .eps | .dot | .bol | .eol | .ch _ => 1
  | .cat a b | .alt a b => rxSize a + rxSize b + 1
  | .star r | .group _ r => rxSize r + 1

/-- Recorded capture groups: `(group, start, stop)`; the most recent
record of a group shadows older ones. -/
abbrev Caps := List (Nat × Nat × Nat)

/-- Backtracking matcher: all ways `r` can match `s` starting at `pos`,
as `(end position, captures)` pairs in backtracking preference order.
Repetition requires progress, so the listed fuel suffices on every
input the driver evaluates. -/
def mrun (fuel : Nat) (r : Rx) (s : Str) (pos : Nat) (caps : Caps) : List (Nat × Caps) :=
  match fuel with
  | 0 => []
  | fuel + 1 =>
    match r with
    | .eps => [(pos, caps)]
    | .ch c =>
      match s.get? pos with
      | some c' => if c' = c then [(pos + 1, caps)] else []
      | none => []
    | .dot =>
      match s.get? pos with
      | some c' => if c' = '\n' then [] else [(pos + 1, caps)]
      | none => []
    | .cat r₁ r₂ => (mrun fuel r₁ s pos caps).flatMap (fun pc => mrun fuel r₂ s pc.1 pc.2)
    | .alt r₁ r₂ => mrun fuel r₁ s pos caps ++ mrun fuel r₂ s pos caps
    | .star r₁ =>
      ((mrun fuel r₁ s pos caps).filter (fun pc => pos < pc.1)).flatMap
        (fun pc => mrun fuel (.star r₁) s pc.1 pc.2) ++ [(pos, caps)]
    | .group n r₁ => (mrun fuel r₁ s pos caps).map (fun pc => (pc.1, (n, pos, pc.1) :: pc.2))
    | .bol => if pos = 0 then [(pos, caps)] else []
    | .eol => if pos = s.length then [(pos, caps)] else []

/-- Fuel bound for a complete backtracking search. -/
def rxFuel (r : Rx) (s : Str) : Nat := (s.length + 2) * (rxSize r + 2)

/-- The preferred match of `r` at position `pos` of `s`, if any. -/
def matchAt (r : Rx) (s : Str) (pos : Nat) : Option (Nat × Caps) :=
  (mrun (rxFuel r s) r s pos []).head?

/-- Scan positions `i, i+1, …` (at most `k` of them) for the first one
where the pattern matches. -/
def scanFirst (r : Rx) (s : Str) : Nat → Nat → Option (Nat × Nat × Caps)
  | 0, _ => none
  | k + 1, i =>
    match matchAt r s i with
    | some ec => some (i, ec.1, ec.2)
    | none => scanFirst r s k (i + 1)

/-- `Regex::find`: the leftmost match of `r` in `s` as
`(start, stop, captures)`. -/
def findFirst (r : Rx) (s : Str) : Option (Nat × Nat × Caps) :=
  scanFirst r s (s.length + 1) 0

/-- `Regex::is_match` (line 357). -/
def is_match (r : Rx) (s : Str) : Bool := (findFirst r s).isSome

/-- The span recorded for capture group `n`, if the group participated
in the match. -/
def capLookup (caps : Caps) (n : Nat) : Option (Nat × Nat) :=
  (caps.find? (fun t => t.1 = n)).map (fun t => t.2)

/-- The substring of `s` between positions `a` and `b`. -/
def slice (s : Str) (a b : Nat) : Str := (s.drop a).take (b - a)

/-- One segment of a compiled replacement string: a literal run or a
`$n` capture reference. -/
inductive ReplSeg where
  | lit (s : Str)
  | ref (n : Nat)
deriving DecidableEq, Repr

/-- Expansion of the replacement string against a match of `s` spanning
`[start, stop)`: `$0` is the whole match, `$n` the capture group `n`
(empty if the group did not participate). -/
def expandRepl (repl : List ReplSeg) (s : Str) (start stop : Nat) (caps : Caps) : Str :=
  (repl.map (fun seg =>
    match seg with
    | .lit l => l
    | .ref 0 => slice s start stop
    | .ref (n + 1) =>
      match capLookup caps (n + 1) with
      | some ab => slice s ab.1 ab.2
      | none => [])).flatten

/-- `Regex::replace` (line 361): replace the leftmost match only,
leaving the rest of the haystack untouched; a haystack without a match
is returned unchanged. -/
def regexReplace (r : Rx) (s : Str) (repl : List ReplSeg) : Str :=
  match findFirst r s with
  | none => s
  | some iec => s.take iec.1 ++ expandRepl repl s iec.1 iec.2.1 iec.2.2 ++ s.drop iec.2.1

/-! ### Destination path join (`Path::join`, lines 362–363)

POSIX `PathBuf::push` semantics: an absolute right-hand side replaces
the root; otherwise the two sides are joined with a single `/`. -/

/-- `Path::new(root).join(rel)` rendered back to a string. -/
def pathJoin (root rel : Str) : Str :=
  if rel.head? = some '/' then rel
  else if root = [] then rel
  else if root.getLast? = some '/' then root ++ rel
  else root ++ '/' :: rel

/-! ### Path Rule Engine (the per-rule body of the target loop,
lines 349–363) -/

/-- One entry of `targets_instantiated` (lines 265–275): the target
type, the compiled template, the compiled match regex and the
replacement string. -/
structure CompiledTarget where
  targetType : SupportedAssetType
  pathPattern : Template
  pathRegex : Rx
  pathReplacement : List ReplSeg
deriving Repr

/-- The body of the per-target loop (lines 349–363) for one rule and
one classified item: type filter, render, match test, replace, join. -/
def applyRule (destRoot : Str) (t : CompiledTarget) (ty : SupportedAssetType)
    (m : PlaceholderMap) : Option Str :=
  if t.targetType ≠ ty then none
  else
    let rendered := render_nofail t.pathPattern m
    if ¬ is_match t.pathRegex rendered then none
    else some (pathJoin destRoot (regexReplace t.pathRegex rendered t.pathReplacement))

/-- The whole per-item target loop: the output paths produced for one
classified item by the rule list, in rule order (`continue` on a type
or match mismatch). -/
def ruleOutputs (destRoot : Str) (ts : List CompiledTarget) (ty : SupportedAssetType)
    (m : PlaceholderMap) : List Str :=
  match ts with
  | [] => []
  | t :: rest =>
    if t.targetType ≠ ty then ruleOutputs destRoot rest ty m
    else
      let rendered := render_nofail t.pathPattern m
      if ¬ is_match t.pathRegex rendered then ruleOutputs destRoot rest ty m
      else pathJoin destRoot (regexReplace t.pathRegex rendered t.pathReplacement)
        :: ruleOutputs destRoot rest ty m

/-- Witness data for C1: the spec scenario `(type text,
template "{container}/{name}.txt", match "^(.+)$", dest "$1")`. -/
def scenarioTarget : CompiledTarget :=
  { targetType := .TextAsset
    pathPattern := [.hole (chars "container"), .lit (chars "/"), .hole (chars "name"),
      .lit (chars ".txt")]
    pathRegex := .cat .bol (.cat (.group 1 (.cat .dot (.star .dot))) .eol)
    pathReplacement := [.ref 1] }

/-- Witness data for C1: the placeholder context of the spec scenario's
single text item. -/
def scenarioMap : PlaceholderMap :=
  [(chars "name", chars "readme"), (chars "container", chars "docs"),
   (chars "index", chars "0"), (chars "bundle_path", chars "a.bundle")]

/-- Witness data for C8: a rule whose pattern `a` occurs three times in
the rendered template `banana`. -/
def bananaTarget : CompiledTarget :=
  { targetType := .TextAsset
    pathPattern := [.lit (chars "banana")]
    pathRegex := .ch 'a'
    pathReplacement := [.lit (chars "x")] }

/-! ### Container Index Builder (`collect_asset_bundle_info`, lines 122–150) -/

/-- `PPtr` (lines 79–85): one entry of the preload table. -/
structure PPtr where
  path_id : Int
  file_id : Int
deriving DecidableEq, Repr

/-- `AssetBundleContainer` (lines 99–107).  `preloadIndex` and
`preloadSize` are `u64` values, carried as naturals below `2 ^ 64`. -/
structure AssetBundleContainer where
  asset : PPtr
  preload_index : Nat
  preload_size : Nat
deriving DecidableEq, Repr

/-- `AssetBundle` (lines 87–97); the `m_Container` hash map is carried
as its iteration sequence. -/
structure AssetBundle where
  name : Str
  asset_bundle_name : Str
  container : List (Str × AssetBundleContainer)
  preload_table : List PPtr
deriving DecidableEq, Repr

/-- `2 ^ 64`, the modulus of Rust `u64` arithmetic. -/
def U64 : Nat := 2 ^ 64

/-- The `u64` range `preload_index..preload_index + preload_size`
iterated at line 136: the end bound is the unchecked `u64` sum, which
wraps modulo `2 ^ 64` (release-profile semantics); a Rust range whose
end does not exceed its start is empty. -/
def preloadIndices (idx size : Nat) : List Nat :=
  List.range' idx ((idx + size) % U64 - idx)

/-- The container-name map (`HashMap<i64, String>`): an association
list in which the most recent insertion shadows older ones. -/
abbrev ContainerMap := List (Int × Str)

/-- `HashMap::insert` — the new binding wins on lookup. -/
def mapInsert (mp : ContainerMap) (k : Int) (v : Str) : ContainerMap := (k, v) :: mp

/-- `HashMap::get`. -/
def mapLookup (mp : ContainerMap) (k : Int) : Option Str :=
  (mp.find? (fun p => p.1 = k)).map (fun p => p.2)

/-- `container_name_map.get(&path_id).cloned().unwrap_or_default()`
(lines 340–344): a missing identifier resolves to the empty string. -/
def lookupContainer (mp : ContainerMap) (k : Int) : Str := (mapLookup mp k).getD []

/-- The state threaded by the builder: the map built so far, plus the
range indices whose preload-table lookup failed and was logged and
skipped (lines 139–142). -/
structure BuildState where
  map : ContainerMap
  skipped : List Nat
deriving DecidableEq, Repr

/-- One step of the inner loop (lines 137–144): look index `i` up in
the preload table; on success insert its `path_id` under the container
name, on failure log the index and skip it. -/
def buildStep (table : List PPtr) (cname : Str) (st : BuildState) (i : Nat) : BuildState :=
  match table[i]? with
  | some pptr => { st with map := mapInsert st.map pptr.path_id cname }
  | none => { st with skipped := st.skipped ++ [i] }

/-- The inner loop over one container's preload range (lines 136–145). -/
def processContainer (table : List PPtr) (st : BuildState)
    (entry : Str × AssetBundleContainer) : BuildState :=
  (preloadIndices entry.2.preload_index entry.2.preload_size).foldl
    (buildStep table entry.1) st

/-- The loop over one decoded manifest's containers (lines 135–146). -/
def processBundle (st : BuildState) (b : AssetBundle) : BuildState :=
  b.container.foldl (processContainer b.preload_table) st

/-- The decoded payload of one archive object, as far as this program
looks at it: an `AssetBundle` manifest carrying the result of decoding
its type tree, a supported asset carrying the result of reading its
type and display name, or anything else with its diagnostic label. -/
inductive ObjKind where
  | bundleObj (d : Except Str AssetBundle)
  | assetObj (d : Except Str (SupportedAssetType × Str))
  | otherObj (label : Str)
deriving Repr

/-- One `unity_rs::Object` at the interface this program uses. -/
structure UnityObject where
  path_id : Int
  kind : ObjKind
deriving Repr

/-- `collect_asset_bundle_info` (lines 122–150): fold the
`AssetBundle`-classed objects into a container-name map, skipping
objects of any other class and propagating a type-tree decode failure
as the build's error. -/
def collect_asset_bundle_info : List UnityObject → BuildState → Except Str BuildState
  | [], st => .ok st
  | ⟨_, .bundleObj (.error e)⟩ :: _, _ => .error e
  | ⟨_, .bundleObj (.ok b)⟩ :: rest, st => collect_asset_bundle_info rest (processBundle st b)
  | ⟨_, .assetObj _⟩ :: rest, st => collect_asset_bundle_info rest st
  | ⟨_, .otherObj _⟩ :: rest, st => collect_asset_bundle_info rest st

/-- The `(path_id, container name)` insertions one container performs,
in order. -/
def containerInsertions (table : List PPtr) (entry : Str × AssetBundleContainer) :
    List (Int × Str) :=
  (preloadIndices entry.2.preload_index entry.2.preload_size).filterMap
    (fun i => (table[i]?).map (fun p => (p.path_id, entry.1)))

/-- The range indices one container logs and skips, in order. -/
def containerSkips (table : List PPtr) (entry : Str × AssetBundleContainer) : List Nat :=
  (preloadIndices entry.2.preload_index entry.2.preload_size).filter
    (fun i => (table[i]?).isNone)

/-- All insertions one decoded manifest performs, in order. -/
def bundleInsertions (b : AssetBundle) : List (Int × Str) :=
  (b.container.map (containerInsertions b.preload_table)).flatten

/-- All indices one decoded manifest logs and skips, in order. -/
def bundleSkips (b : AssetBundle) : List Nat :=
  (b.container.map (containerSkips b.preload_table)).flatten

/-- The insertions one object contributes. -/
def objInsertions (o : UnityObject) : List (Int × Str) :=
  match o.kind with
  | .bundleObj (.ok b) => bundleInsertions b
  | _ => []

/-- The skipped indices one object contributes. -/
def objSkips (o : UnityObject) : List Nat :=
  match o.kind with
  | .bundleObj (.ok b) => bundleSkips b
  | _ => []

/-- All insertions an archive's objects perform, in order. -/
def allInsertions (objs : List UnityObject) : List (Int × Str) :=
  (objs.map objInsertions).flatten

/-- All indices an archive's objects log and skip, in order. -/
def allSkips (objs : List UnityObject) : List Nat :=
  (objs.map objSkips).flatten

/-- The value of the last insertion of key `k` in a trace, if any. -/
def lastValue (tr : List (Int × Str)) (k : Int) : Option Str :=
  (tr.reverse.find? (fun p => p.1 = k)).map (fun p => p.2)

/-- Whether an object cannot make the builder fail: it is not a
manifest whose type tree fails to decode. -/
def objOk (o : UnityObject) : Bool :=
  match o.kind with
  | .bundleObj (.error _) => false
  | _ => true

/-- Witness data for C2: the spec's example — container `c1` claims
preload range `[0, 2)` over the three-entry preload table whose
`path_id`s are `10`, `11`, `12`. -/
def exampleBundle : AssetBundle :=
  { name := chars "b"
    asset_bundle_name := chars "b"
    container := [(chars "c1", { asset := ⟨10, 0⟩, preload_index := 0, preload_size := 2 })]
    preload_table := [⟨10, 0⟩, ⟨11, 0⟩, ⟨12, 0⟩] }

/-- Witness data for C9: two containers whose preload ranges both
reference `path_id` `10`; `c2` is iterated later. -/
def overlapBundle : AssetBundle :=
  { name := chars "b"
    asset_bundle_name := chars "b"
    container := [(chars "c1", { asset := ⟨10, 0⟩, preload_index := 0, preload_size := 1 }),
                  (chars "c2", { asset := ⟨10, 0⟩, preload_index := 0, preload_size := 1 })]
    preload_table := [⟨10, 0⟩] }

/-! ### Batch Driver (the `Extract` arm of `main`, lines 201–392)

The driver is modelled as a pure function of its inputs.  The
filesystem, the archive parser and the asset decoder are ambient
environments, constant during (and across) runs; progress-file writes
and the panicking setup steps (regex compilation, progress-file open,
`chdir`, glob expansion) are assumed to succeed — the claims under
proof do not concern them.  Side effects are collected into ordered
event lists. -/

/-- `AssetMetadata` (lines 116–120). -/
inductive AssetMetadata where
  | Supported (ty : SupportedAssetType) (name : Str)
  | Unsupported (label : Str)
deriving Repr

/-- `get_asset_metadata` (lines 152–180) at the modelled object
interface: a supported class decodes to its type and display name or
surfaces its read error; an `AssetBundle` or unknown class is
unsupported, with a diagnostic label. -/
def get_asset_metadata (o : UnityObject) : Except Str AssetMetadata :=
  match o.kind with
  | .assetObj (.ok tyname) => .ok (.Supported tyname.1 tyname.2)
  | .assetObj (.error e) => .error e
  | .bundleObj _ => .ok (.Unsupported (chars "AssetBundle (unsupported)"))
  | .otherObj label => .ok (.Unsupported (label ++ chars " (unsupported)"))

/-- The filesystem and decoder environment (`std::fs`, `Path::parent`
and `dump_asset` boundaries), constant during a run. -/
structure FsEnv where
  parentOf : Str → Option Str
  dirExists : Str → Bool
  createFails : Str → Bool
  dumpFails : Str → Option Str

/-- What reading and parsing one archive path yields (`std::fs::read`
plus `Env::load_from_slice`, lines 306–317), constant during and across
runs over unchanged inputs. -/
inductive LoadResult where
  | readErr (e : Str)
  | parseErr
  | loaded (objs : List UnityObject)

/-- The ambient environment of a run. -/
structure ExtractEnv where
  fs : FsEnv
  content : Str → LoadResult

/-- The configuration after rule compilation (`Config` of lines 55–63
with `targets_instantiated` of lines 265–275). -/
structure ModelConfig where
  dest : Str
  targets : List CompiledTarget

/-- Ordered side effects of (part of) a run: diagnostics, archives
reported skipped, archives whose bytes were read (or attempted),
paths handed to `dump_asset`, and paths appended to the progress
file. -/
structure RunAcc where
  logs : List Str
  skips : List Str
  reads : List Str
  dumps : List Str
  recorded : List Str
deriving DecidableEq, Repr

/-- The empty effect record. -/
def RunAcc.empty : RunAcc := ⟨[], [], [], [], []⟩

/-- Concatenation of effect records, in order of occurrence. -/
def RunAcc.append (a b : RunAcc) : RunAcc :=
  ⟨a.logs ++ b.logs, a.skips ++ b.skips, a.reads ++ b.reads,
   a.dumps ++ b.dumps, a.recorded ++ b.recorded⟩

/-- The `!dry_run` block for one produced path (lines 367–381):
determine the parent (a missing parent is only reported), create it if
absent — a creation failure propagates through `?` as the run's fatal
error (line 371) — then hand the path to `dump_asset`, whose failure is
only reported.  Returns `(diagnostics, dump calls, fatal error)`. -/
def extractStep (fs : FsEnv) (path : Str) : List Str × List Str × Option Str :=
  match fs.parentOf path with
  | some parent =>
    if fs.dirExists parent = false ∧ fs.createFails parent = true then
      ([], [], some (chars "Failed to create directory: " ++ parent))
    else
      match fs.dumpFails path with
      | some e => ([chars "Failed to dump asset: " ++ e], [path], none)
      | none => ([], [path], none)
  | none =>
    match fs.dumpFails path with
    | some e => ([chars "Failed to get parent path of " ++ path,
        chars "Failed to dump asset: " ++ e], [path], none)
    | none => ([chars "Failed to get parent path of " ++ path], [path], none)

/-- The per-item loop over the compiled targets (lines 349–382): each
rule's `applyRule` output is printed and, unless `dry_run`, extracted;
a fatal error short-circuits the loop (the `?` of line 371). -/
def processTargets (cfg : ModelConfig) (fs : FsEnv) (dryRun : Bool)
    (ty : SupportedAssetType) (m : PlaceholderMap) :
    List CompiledTarget → List Str × List Str × Option Str
  | [] => ([], [], none)
  | t :: rest =>
    match applyRule cfg.dest t ty m with
    | none => processTargets cfg fs dryRun ty m rest
    | some path =>
      if dryRun then processTargets cfg fs dryRun ty m rest
      else
        match extractStep fs path with
        | (logs, dumps, some e) => (logs, dumps, some e)
        | (logs, dumps, none) =>
          match processTargets cfg fs dryRun ty m rest with
          | (logs', dumps', err') => (logs ++ logs', dumps ++ dumps', err')

/-- The per-archive item loop (lines 325–383): classify each enumerated
object, skip unsupported ones, report read failures and continue, and
run the target loop for supported ones over their placeholder context;
a fatal error short-circuits. -/
def processObjects (cfg : ModelConfig) (fs : FsEnv) (dryRun : Bool)
    (cmap : ContainerMap) (bp : Str) :
    List (Nat × UnityObject) → List Str × List Str × Option Str
  | [] => ([], [], none)
  | (idx, o) :: rest =>
    match get_asset_metadata o with
    | .ok (.Unsupported _) => processObjects cfg fs dryRun cmap bp rest
    | .error e =>
      match processObjects cfg fs dryRun cmap bp rest with
      | (logs, dumps, err) => ((chars "Failed to read object: " ++ e) :: logs, dumps, err)
    | .ok (.Supported ty name) =>
      let m : PlaceholderMap :=
        [(chars "name", name),
         (chars "container", lookupContainer cmap o.path_id),
         (chars "index", chars (toString idx)),
         (chars "bundle_path", bp)]
      match processTargets cfg fs dryRun ty m cfg.targets with
      | (logs, dumps, some e) => (logs, dumps, some e)
      | (logs, dumps, none) =>
        match processObjects cfg fs dryRun cmap bp rest with
        | (logs', dumps', err') => (logs ++ logs', dumps ++ dumps', err')

/-- The observable outcome of the per-archive body (lines 290–388). -/
structure ArchRes where
  logs : List Str
  skipped : Bool
  readAttempt : Bool
  dumps : List Str
  recordedP : Bool
  err : Option Str
deriving DecidableEq, Repr

/-- The body of the archive loop for one candidate path
(lines 290–388): normalize, check the progress set and skip; otherwise
read (a failure is reported and the archive skipped), parse, build the
container index, run the item loop, and — when the enumeration ran to
completion and `incremental` is set — append the normalized path to the
progress file. -/
def processArchive (cfg : ModelConfig) (env : ExtractEnv) (processed : List Str)
    (incremental dryRun : Bool) (p : Str) : ArchRes :=
  let np := normalize p
  if np ∈ processed then ⟨[], true, false, [], false, none⟩
  else
    match env.content p with
    | .readErr e => ⟨[chars "Failed to read file: " ++ e], false, true, [], false, none⟩
    | .parseErr => ⟨[chars "Failed to parse asset bundle"], false, true, [], false, none⟩
    | .loaded objs =>
      match collect_asset_bundle_info objs ⟨[], []⟩ with
      | .error e =>
        ⟨[chars "Failed to collect asset bundle info: " ++ e], false, true, [], false, none⟩
      | .ok bst =>
        match processObjects cfg env.fs dryRun bst.map np objs.enum with
        | (logs, dumps, some e) => ⟨logs, false, true, dumps, false, some e⟩
        | (logs, dumps, none) => ⟨logs, false, true, dumps, incremental, none⟩

/-- The archive loop (lines 281–389): poll the interruption channel at
the top of each iteration and break when a signal is pending; otherwise
process the next archive, stopping the run if its body propagated a
fatal error. -/
def runLoop (cfg : ModelConfig) (env : ExtractEnv) (processed : List Str)
    (incremental dryRun : Bool) (stop : Nat → Bool) :
    Nat → List Str → RunAcc × Option Str
  | _, [] => (RunAcc.empty, none)
  | k, p :: rest =>
    if stop k then ({ RunAcc.empty with logs := [chars "Interrupted"] }, none)
    else
      let a := processArchive cfg env processed incremental dryRun p
      let np := normalize p
      let acc : RunAcc := ⟨a.logs, if a.skipped then [np] else [],
        if a.readAttempt then [np] else [], a.dumps,
        if a.recordedP then [np] else []⟩
      match a.err with
      | some e => (acc, some e)
      | none =>
        match runLoop cfg env processed incremental dryRun stop (k + 1) rest with
        | (acc', e') => (acc.append acc', e')

/-- The `Extract` arm of `main` (lines 203–392): a configuration that
cannot be read or parsed prints a diagnostic and returns success
without touching any archive (lines 209–222); otherwise the archive
loop runs.  The returned `Option` is `main`'s error result: `none`
models `Ok(())` (exit status 0). -/
def extractMain (configRes : Except Str ModelConfig) (env : ExtractEnv)
    (processed : List Str) (incremental dryRun : Bool) (stop : Nat → Bool)
    (archives : List Str) : RunAcc × Option Str :=
  match configRes with
  | .error e => ({ RunAcc.empty with logs := [e] }, none)
  | .ok cfg => runLoop cfg env processed incremental dryRun stop 0 archives

/-- Claim-side characterization for C3, computed from the run's inputs:
whether an archive's item enumeration would run to completion in a run
that reaches it — it is not skip-listed, its bytes read and parse, its
manifest index builds, and the item loop finishes without a fatal
error. -/
def enumerationCompletes (cfg : ModelConfig) (env : ExtractEnv) (processed : List Str)
    (dryRun : Bool) (p : Str) : Bool :=
  if normalize p ∈ processed then false
  else
    match env.content p with
    | .loaded objs =>
      match collect_asset_bundle_info objs ⟨[], []⟩ with
      | .ok bst =>
        ((processObjects cfg env.fs dryRun bst.map (normalize p) objs.enum).2.2).isNone
      | .error _ => false
    | _ => false

/-- Claim-side characterization for C3: the progress-file appends the
loop performs, computed from the run's inputs. -/
def recordedOf (cfg : ModelConfig) (env : ExtractEnv) (processed : List Str)
    (incremental dryRun : Bool) (stop : Nat → Bool) :
    Nat → List Str → List Str
  | _, [] => []
  | k, p :: rest =>
    if stop k then []
    else
      let a := processArchive cfg env processed incremental dryRun p
      (if a.recordedP then [normalize p] else [])
        ++ (if a.err.isSome then []
            else recordedOf cfg env processed incremental dryRun stop (k + 1) rest)

/-- Counterexample data for C5: a text rule whose joined output path is
`out/ff`. -/
def c5Target : CompiledTarget :=
  { targetType := .TextAsset
    pathPattern := [.lit (chars "f")]
    pathRegex := .eps
    pathReplacement := [.lit (chars "f")] }

/-- Counterexample data for C5: the configuration holding the rule. -/
def c5Config : ModelConfig := { dest := chars "out", targets := [c5Target] }

/-- Counterexample data for C5: a filesystem on which the destination's
parent directory is absent and cannot be created. -/
def c5Fs : FsEnv :=
  { parentOf := fun _ => some (chars "out")
    dirExists := fun _ => false
    createFails := fun _ => true
    dumpFails := fun _ => none }

/-- Counterexample data for C5: archive `a` holds one text item;
archive `b` is empty. -/
def c5Env : ExtractEnv :=
  { fs := c5Fs
    content := fun p =>
      if p = chars "a" then .loaded [⟨1, .assetObj (.ok (.TextAsset, chars "f"))⟩]
      else .loaded [] }

/-- Witness data for C3: an environment in which every archive is empty
and completes immediately. -/
def trivialEnv : ExtractEnv :=
  { fs :=
      { parentOf := fun _ => none
        dirExists := fun _ => true
        createFails := fun _ => false
        dumpFails := fun _ => none }
    content := fun _ => .loaded [] }

/-- Witness data for C3 and C4: a configuration with no targets. -/
def emptyConfig : ModelConfig := { dest := [], targets := [] }

end Uabx

namespace Uabx

theorem render_nofail_nil (m : PlaceholderMap) : render_nofail [] m = [] := rfl

theorem render_nofail_cons (s : TemplateSeg) (t : Template) (m : PlaceholderMap) :
    render_nofail (s :: t) m = renderSeg m s ++ render_nofail t m := by
  simp [render_nofail]

theorem templateHoles_nil : templateHoles [] = [] := rfl

theorem templateHoles_cons_lit (s : Str) (t : Template) :
    templateHoles (.lit s :: t) = templateHoles t := rfl

theorem templateHoles_cons_hole (n : Str) (t : Template) :
    templateHoles (.hole n :: t) = n :: templateHoles t := rfl

theorem render_congr (t : Template) (m₁ m₂ : PlaceholderMap)
    (h : ∀ n ∈ templateHoles t, lookupPlaceholder m₁ n = lookupPlaceholder m₂ n) :
    render_nofail t m₁ = render_nofail t m₂ := by
  induction t with
  | nil => rfl
  | cons s t ih =>
    rw [render_nofail_cons, render_nofail_cons]
    cases s with
    | lit s =>
      rw [ih (fun n hn => h n (by rw [templateHoles_cons_lit]; exact hn))]
      rfl
    | hole n =>
      have hn := h n (by rw [templateHoles_cons_hole]; exact List.mem_cons_self n _)
      rw [ih (fun k hk => h k (by rw [templateHoles_cons_hole]; exact List.mem_cons_of_mem n hk))]
      simp only [renderSeg, hn]

theorem render_missing_key (t : Template) (m : PlaceholderMap) (n : Str)
    (hmem : n ∈ templateHoles t) (hmiss : lookupPlaceholder m n = none) :
    ∃ pre post, render_nofail t m = pre ++ ('{' :: (n ++ ['}'])) ++ post := by
  induction t with
  | nil => rw [templateHoles_nil] at hmem; exact absurd hmem (List.not_mem_nil n)
  | cons s t ih =>
    rw [render_nofail_cons]
    cases s with
    | lit s =>
      rw [templateHoles_cons_lit] at hmem
      obtain ⟨pre, post, hp⟩ := ih hmem
      exact ⟨s ++ pre, post, by rw [hp]; simp [renderSeg]⟩
    | hole k =>
      rw [templateHoles_cons_hole] at hmem
      rcases List.mem_cons.mp hmem with heq | hmem'
      · subst heq
        exact ⟨[], render_nofail t m, by simp [renderSeg, hmiss]⟩
      · obtain ⟨pre, post, hp⟩ := ih hmem'
        exact ⟨renderSeg m (.hole k) ++ pre, post, by rw [hp]; simp⟩

/-- C7: template rendering is total and never fails: it is a plain function
of the template and the context (`render_nofail`, line 356); contexts that
agree on the placeholders the template actually uses render identically
(extra keys are ignored), and a placeholder whose name is absent from the
context is rendered as-is — its literal text appears verbatim in the
output — instead of aborting the item. -/
theorem c7_render_total_nofail (t : Template) (m m₁ m₂ : PlaceholderMap) (n : Str) :
    ((∀ k ∈ templateHoles t, lookupPlaceholder m₁ k = lookupPlaceholder m₂ k) →
      render_nofail t m₁ = render_nofail t m₂)
    ∧ (n ∈ templateHoles t → lookupPlaceholder m n = none →
      ∃ pre post, render_nofail t m = pre ++ ('{' :: (n ++ ['}'])) ++ post) :=
  ⟨render_congr t m₁ m₂, render_missing_key t m n⟩

/-- Witness for C7 at a concrete template `"{container}/{name}"` rendered
against concrete contexts: an extra key changes nothing, and with the
`container` key absent the placeholder text survives verbatim. -/
theorem c7_render_total_nofail_witness :
    (render_nofail [.hole (chars "container"), .lit (chars "/"), .hole (chars "name")]
        [(chars "name", chars "x"), (chars "extra", chars "y")]
      = render_nofail [.hole (chars "container"), .lit (chars "/"), .hole (chars "name")]
        [(chars "name", chars "x")])
    ∧ (∃ pre post,
        render_nofail [.hole (chars "container"), .lit (chars "/"), .hole (chars "name")]
          [(chars "name", chars "x")]
        = pre ++ ('{' :: (chars "container" ++ ['}'])) ++ post) :=
  ⟨(c7_render_total_nofail
      [.hole (chars "container"), .lit (chars "/"), .hole (chars "name")]
      [] [(chars "name", chars "x"), (chars "extra", chars "y")]
      [(chars "name", chars "x")] (chars "container")).1 (by decide),
   (c7_render_total_nofail
      [.hole (chars "container"), .lit (chars "/"), .hole (chars "name")]
      [(chars "name", chars "x")] [] [] (chars "container")).2
      (by decide) (by decide)⟩

theorem scanFirst_spec (r : Rx) (s : Str) :
    ∀ (k i₀ i e : Nat) (c : Caps), scanFirst r s k i₀ = some (i, e, c) →
      i₀ ≤ i ∧ matchAt r s i = some (e, c) ∧
        ∀ j, i₀ ≤ j → j < i → matchAt r s j = none := by
  intro k
  induction k with
  | zero =>
    intro i₀ i e c h
    exact absurd h (by simp [scanFirst])
  | succ k ih =>
    intro i₀ i e c h
    unfold scanFirst at h
    cases hm : matchAt r s i₀ with
    | some ec =>
      rw [hm] at h
      simp only [Option.some.injEq, Prod.mk.injEq] at h
      obtain ⟨rfl, rfl, rfl⟩ := h
      refine ⟨Nat.le_refl _, by rw [hm], fun j hj1 hj2 => ?_⟩
      exact absurd (Nat.lt_of_le_of_lt hj1 hj2) (Nat.lt_irrefl _)
    | none =>
      rw [hm] at h
      obtain ⟨h1, h2, h3⟩ := ih (i₀ + 1) i e c h
      refine ⟨Nat.le_of_succ_le h1, h2, fun j hj1 hj2 => ?_⟩
      rcases Nat.eq_or_lt_of_le hj1 with heq | hlt
      · rw [← heq]; exact hm
      · exact h3 j hlt hj2

theorem findFirst_leftmost (r : Rx) (s : Str) (i e : Nat) (c : Caps)
    (h : findFirst r s = some (i, e, c)) :
    matchAt r s i = some (e, c) ∧ ∀ j, j < i → matchAt r s j = none := by
  obtain ⟨-, h2, h3⟩ := scanFirst_spec r s (s.length + 1) 0 i e c h
  exact ⟨h2, fun j hj => h3 j (Nat.zero_le j) hj⟩

/-- C1: the Path Rule Engine, for any extraction rule and any classified
item with its placeholder context: it produces no path when the rule's
asset type differs from the item's classified type; it produces no path
when the match pattern does not match the rendered template; and
otherwise it produces exactly one path, equal to the configured
destination root joined with the regex-replacement of the rendered
template — the steps applied in the order type filter, render, match
test, replace, join.  Moreover the per-item target loop produces
exactly these per-rule outputs, in rule order. -/
theorem c1_path_rule_engine (destRoot : Str) (t : CompiledTarget)
    (ty : SupportedAssetType) (m : PlaceholderMap) (ts : List CompiledTarget) :
    (t.targetType ≠ ty → applyRule destRoot t ty m = none)
    ∧ (t.targetType = ty →
        is_match t.pathRegex (render_nofail t.pathPattern m) = false →
        applyRule destRoot t ty m = none)
    ∧ (t.targetType = ty →
        is_match t.pathRegex (render_nofail t.pathPattern m) = true →
        applyRule destRoot t ty m =
          some (pathJoin destRoot
            (regexReplace t.pathRegex (render_nofail t.pathPattern m) t.pathReplacement)))
    ∧ ruleOutputs destRoot ts ty m = ts.filterMap (fun t' => applyRule destRoot t' ty m) := by
  refine ⟨fun h => by simp [applyRule, h], fun h h2 => by simp [applyRule, h, h2],
    fun h h2 => by simp [applyRule, h, h2], ?_⟩
  induction ts with
  | nil => rfl
  | cons t' rest ih =>
    by_cases h : t'.targetType = ty
    · by_cases h2 : is_match t'.pathRegex (render_nofail t'.pathPattern m) = true
      · simp [ruleOutputs, applyRule, h, h2, ih]
      · simp [ruleOutputs, applyRule, h, h2, ih]
    · simp [ruleOutputs, applyRule, h, ih]

/-- Witness for C1: the spec scenario rule `(text, "{container}/{name}.txt",
"^(.+)$", "$1")` applied to the text item `readme` in container `docs`
under destination root `out` produces exactly the path
`out/docs/readme.txt`. -/
theorem c1_path_rule_engine_witness :
    applyRule (chars "out") scenarioTarget .TextAsset scenarioMap
      = some (pathJoin (chars "out")
          (regexReplace scenarioTarget.pathRegex
            (render_nofail scenarioTarget.pathPattern scenarioMap)
            scenarioTarget.pathReplacement))
    ∧ pathJoin (chars "out")
        (regexReplace scenarioTarget.pathRegex
          (render_nofail scenarioTarget.pathPattern scenarioMap)
          scenarioTarget.pathReplacement) = chars "out/docs/readme.txt" :=
  ⟨(c1_path_rule_engine (chars "out") scenarioTarget .TextAsset scenarioMap []).2.2.1
      (by decide) (by decide),
   by decide⟩

/-- C8: when a rule produces a path, the relative part is the rendered
template with only the leftmost occurrence of the match pattern replaced
by the capture-expanded replacement: there is a match span `[i, e)` such
that no earlier position matches, the text before `i` and from `e` on is
preserved verbatim (so any later matches stay untouched), and the
produced path joins the destination root with exactly that string. -/
theorem c8_replace_first_only (destRoot : Str) (t : CompiledTarget)
    (ty : SupportedAssetType) (m : PlaceholderMap) (p : Str)
    (h : applyRule destRoot t ty m = some p) :
    ∃ i e c,
      matchAt t.pathRegex (render_nofail t.pathPattern m) i = some (e, c)
      ∧ (∀ j, j < i → matchAt t.pathRegex (render_nofail t.pathPattern m) j = none)
      ∧ p = pathJoin destRoot
          ((render_nofail t.pathPattern m).take i
            ++ expandRepl t.pathReplacement (render_nofail t.pathPattern m) i e c
            ++ (render_nofail t.pathPattern m).drop e) := by
  unfold applyRule at h
  by_cases hty : t.targetType = ty
  · simp only [hty, ne_eq, not_true_eq_false, if_false] at h
    cases hf : findFirst t.pathRegex (render_nofail t.pathPattern m) with
    | none =>
      have : is_match t.pathRegex (render_nofail t.pathPattern m) = false := by
        simp [is_match, hf]
      simp [this] at h
    | some iec =>
      obtain ⟨i, e, c⟩ := iec
      have hm : is_match t.pathRegex (render_nofail t.pathPattern m) = true := by
        simp [is_match, hf]
      simp only [hm] at h
      obtain ⟨h1, h2⟩ := findFirst_leftmost _ _ i e c hf
      refine ⟨i, e, c, h1, h2, ?_⟩
      have : regexReplace t.pathRegex (render_nofail t.pathPattern m) t.pathReplacement
          = (render_nofail t.pathPattern m).take i
            ++ expandRepl t.pathReplacement (render_nofail t.pathPattern m) i e c
            ++ (render_nofail t.pathPattern m).drop e := by
        unfold regexReplace
        rw [hf]
      rw [← this]
      simp at h
      exact h.symm
  · simp [hty] at h

/-- Witness for C8: the rule with pattern `a` and replacement `x` over
the rendered template `banana` produces `bxnana` — only the leftmost of
the three occurrences of `a` is replaced, the rest of the text is
preserved verbatim. -/
theorem c8_replace_first_only_witness :
    ∃ i e c,
      matchAt bananaTarget.pathRegex (render_nofail bananaTarget.pathPattern []) i
        = some (e, c)
      ∧ (∀ j, j < i → matchAt bananaTarget.pathRegex
          (render_nofail bananaTarget.pathPattern []) j = none)
      ∧ chars "bxnana" = pathJoin []
          ((render_nofail bananaTarget.pathPattern []).take i
            ++ expandRepl bananaTarget.pathReplacement
                (render_nofail bananaTarget.pathPattern []) i e c
            ++ (render_nofail bananaTarget.pathPattern []).drop e) :=
  c8_replace_first_only [] bananaTarget .TextAsset [] (chars "bxnana") (by decide)

theorem foldl_buildStep (table : List PPtr) (cname : Str) :
    ∀ (l : List Nat) (st : BuildState),
      (l.foldl (buildStep table cname) st).map
        = (l.filterMap (fun i => (table[i]?).map (fun p => (p.path_id, cname)))).reverse
          ++ st.map
      ∧ (l.foldl (buildStep table cname) st).skipped
        = st.skipped ++ l.filter (fun i => (table[i]?).isNone) := by
  intro l
  induction l with
  | nil => intro st; exact ⟨rfl, by simp⟩
  | cons i l ih =>
    intro st
    obtain ⟨h1, h2⟩ := ih (buildStep table cname st i)
    cases hg : table[i]? with
    | some pptr =>
      refine ⟨?_, ?_⟩
      · rw [List.foldl_cons, h1]
        simp [buildStep, hg, mapInsert, List.filterMap_cons]
      · rw [List.foldl_cons, h2]
        simp [buildStep, hg, List.filter_cons]
    | none =>
      refine ⟨?_, ?_⟩
      · rw [List.foldl_cons, h1]
        simp [buildStep, hg, List.filterMap_cons]
      · rw [List.foldl_cons, h2]
        simp [buildStep, hg, List.filter_cons]

theorem processContainer_spec (table : List PPtr) (st : BuildState)
    (entry : Str × AssetBundleContainer) :
    (processContainer table st entry).map
      = (containerInsertions table entry).reverse ++ st.map
    ∧ (processContainer table st entry).skipped
      = st.skipped ++ containerSkips table entry :=
  foldl_buildStep table entry.1
    (preloadIndices entry.2.preload_index entry.2.preload_size) st

theorem foldl_processContainer (table : List PPtr) :
    ∀ (entries : List (Str × AssetBundleContainer)) (st : BuildState),
      (entries.foldl (processContainer table) st).map
        = ((entries.map (containerInsertions table)).flatten).reverse ++ st.map
      ∧ (entries.foldl (processContainer table) st).skipped
        = st.skipped ++ (entries.map (containerSkips table)).flatten := by
  intro entries
  induction entries with
  | nil => intro st; exact ⟨rfl, by simp⟩
  | cons e es ih =>
    intro st
    obtain ⟨h1, h2⟩ := ih (processContainer table st e)
    obtain ⟨g1, g2⟩ := processContainer_spec table st e
    refine ⟨?_, ?_⟩
    · rw [List.foldl_cons, h1, g1]; simp
    · rw [List.foldl_cons, h2, g2]; simp

theorem processBundle_spec (st : BuildState) (b : AssetBundle) :
    (processBundle st b).map = (bundleInsertions b).reverse ++ st.map
    ∧ (processBundle st b).skipped = st.skipped ++ bundleSkips b :=
  foldl_processContainer b.preload_table b.container st

theorem collect_spec :
    ∀ (objs : List UnityObject) (st : BuildState),
      (∀ o ∈ objs, objOk o = true) →
      collect_asset_bundle_info objs st
        = .ok ⟨(allInsertions objs).reverse ++ st.map, st.skipped ++ allSkips objs⟩ := by
  intro objs
  induction objs with
  | nil =>
    intro st _
    simp [collect_asset_bundle_info, allInsertions, allSkips]
  | cons o rest ih =>
    intro st h
    obtain ⟨pid, kind⟩ := o
    have ho := h _ (List.mem_cons_self _ rest)
    have hrest : ∀ o' ∈ rest, objOk o' = true :=
      fun o' ho' => h o' (List.mem_cons_of_mem _ ho')
    have hall : ∀ o', allInsertions (o' :: rest) = objInsertions o' ++ allInsertions rest := by
      intro o'; simp [allInsertions]
    have hskip : ∀ o', allSkips (o' :: rest) = objSkips o' ++ allSkips rest := by
      intro o'; simp [allSkips]
    cases kind with
    | bundleObj d =>
      cases d with
      | error e => simp [objOk] at ho
      | ok b =>
        obtain ⟨g1, g2⟩ := processBundle_spec st b
        rw [show collect_asset_bundle_info (⟨pid, .bundleObj (.ok b)⟩ :: rest) st
            = collect_asset_bundle_info rest (processBundle st b) from rfl]
        rw [ih (processBundle st b) hrest, g1, g2, hall, hskip]
        simp [objInsertions, objSkips]
    | assetObj d =>
      rw [show collect_asset_bundle_info (⟨pid, .assetObj d⟩ :: rest) st
          = collect_asset_bundle_info rest st from rfl]
      rw [ih st hrest, hall, hskip]
      simp [objInsertions, objSkips]
    | otherObj label =>
      rw [show collect_asset_bundle_info (⟨pid, .otherObj label⟩ :: rest) st
          = collect_asset_bundle_info rest st from rfl]
      rw [ih st hrest, hall, hskip]
      simp [objInsertions, objSkips]

theorem mapLookup_not_mem (mp : ContainerMap) (k : Int)
    (h : ∀ v, (k, v) ∉ mp) : mapLookup mp k = none := by
  unfold mapLookup
  rw [List.find?_eq_none.mpr]
  · rfl
  · intro p hp
    simp only [decide_eq_true_eq] at *
    intro hpk
    exact h p.2 (by rw [← hpk] at *; simpa using hp)

/-- C2: for every archive whose manifests decode, the Container Index
Builder succeeds; for each named container, every `path_id` referenced
by the preload-table entries in the half-open range
`[preloadIndex, preloadIndex + preloadSize)` is inserted into the map
under that container's name; an index of the range that is outside the
preload table's bounds is logged and skipped without failing the build;
and an item identifier that was never mapped resolves to the empty
string. -/
theorem c2_container_index (objs : List UnityObject)
    (hok : ∀ o ∈ objs, objOk o = true) :
    ∃ st, collect_asset_bundle_info objs ⟨[], []⟩ = .ok st
      ∧ (∀ o ∈ objs, ∀ b, o.kind = .bundleObj (.ok b) →
          ∀ entry ∈ b.container,
            ∀ i ∈ preloadIndices entry.2.preload_index entry.2.preload_size,
              ∀ p, b.preload_table[i]? = some p → (p.path_id, entry.1) ∈ st.map)
      ∧ (∀ o ∈ objs, ∀ b, o.kind = .bundleObj (.ok b) →
          ∀ entry ∈ b.container,
            ∀ i ∈ preloadIndices entry.2.preload_index entry.2.preload_size,
              b.preload_table[i]? = none → i ∈ st.skipped)
      ∧ (∀ k, (∀ v, (k, v) ∉ st.map) → lookupContainer st.map k = []) := by
  refine ⟨⟨(allInsertions objs).reverse, allSkips objs⟩, ?_, ?_, ?_, ?_⟩
  · rw [collect_spec objs ⟨[], []⟩ hok]; simp
  · intro o ho b hb entry hentry i hi p hp
    simp only [List.mem_reverse]
    show (p.path_id, entry.1) ∈ allInsertions objs
    have h1 : (p.path_id, entry.1) ∈ containerInsertions b.preload_table entry := by
      unfold containerInsertions
      exact List.mem_filterMap.mpr ⟨i, hi, by rw [hp]; rfl⟩
    have h2 : (p.path_id, entry.1) ∈ bundleInsertions b := by
      unfold bundleInsertions
      exact List.mem_flatten.mpr ⟨containerInsertions b.preload_table entry,
        List.mem_map.mpr ⟨entry, hentry, rfl⟩, h1⟩
    exact List.mem_flatten.mpr ⟨objInsertions o,
      List.mem_map.mpr ⟨o, ho, rfl⟩, by rw [objInsertions, hb]; exact h2⟩
  · intro o ho b hb entry hentry i hi hp
    show i ∈ allSkips objs
    have h1 : i ∈ containerSkips b.preload_table entry := by
      unfold containerSkips
      exact List.mem_filter.mpr ⟨hi, by rw [hp]; rfl⟩
    have h2 : i ∈ bundleSkips b := by
      unfold bundleSkips
      exact List.mem_flatten.mpr ⟨containerSkips b.preload_table entry,
        List.mem_map.mpr ⟨entry, hentry, rfl⟩, h1⟩
    exact List.mem_flatten.mpr ⟨objSkips o,
      List.mem_map.mpr ⟨o, ho, rfl⟩, by rw [objSkips, hb]; exact h2⟩
  · intro k hk
    unfold lookupContainer
    rw [mapLookup_not_mem _ _ hk]
    rfl

/-- Witness for C2: the spec's example — container `c1` claims preload
range `[0, 2)` over a three-entry table; the identifiers `10` and `11`
(entries 0 and 1) resolve to `c1`, while `12` (entry 2, outside the
range) was never mapped and resolves to the empty string. -/
theorem c2_container_index_witness :
    (∃ st, collect_asset_bundle_info [⟨0, .bundleObj (.ok exampleBundle)⟩] ⟨[], []⟩
        = .ok st
      ∧ (∀ o ∈ [(⟨0, .bundleObj (.ok exampleBundle)⟩ : UnityObject)],
          ∀ b, o.kind = .bundleObj (.ok b) →
          ∀ entry ∈ b.container,
            ∀ i ∈ preloadIndices entry.2.preload_index entry.2.preload_size,
              ∀ p, b.preload_table[i]? = some p → (p.path_id, entry.1) ∈ st.map)
      ∧ (∀ o ∈ [(⟨0, .bundleObj (.ok exampleBundle)⟩ : UnityObject)],
          ∀ b, o.kind = .bundleObj (.ok b) →
          ∀ entry ∈ b.container,
            ∀ i ∈ preloadIndices entry.2.preload_index entry.2.preload_size,
              b.preload_table[i]? = none → i ∈ st.skipped)
      ∧ (∀ k, (∀ v, (k, v) ∉ st.map) → lookupContainer st.map k = []))
    ∧ collect_asset_bundle_info [⟨0, .bundleObj (.ok exampleBundle)⟩] ⟨[], []⟩
        = .ok ⟨[(11, chars "c1"), (10, chars "c1")], []⟩
    ∧ lookupContainer [(11, chars "c1"), (10, chars "c1")] 10 = chars "c1"
    ∧ lookupContainer [(11, chars "c1"), (10, chars "c1")] 11 = chars "c1"
    ∧ lookupContainer [(11, chars "c1"), (10, chars "c1")] 12 = [] :=
  ⟨c2_container_index [⟨0, .bundleObj (.ok exampleBundle)⟩] (by decide),
   by rfl, by decide, by decide, by decide⟩

/-- C9: the built Container Index is a function from item identifier to
a single container name: a `HashMap` insertion overwrites silently, so
looking any key up yields exactly the value of the chronologically last
insertion of that key — when the preload ranges of two containers (or
two manifest entries) both reference one `path_id`, the item resolves
to the name inserted later, not to both. -/
theorem c9_last_insertion_wins (objs : List UnityObject)
    (hok : ∀ o ∈ objs, objOk o = true) :
    (∀ (mp : ContainerMap) (k : Int) (v : Str), mapLookup (mapInsert mp k v) k = some v)
    ∧ ∃ st, collect_asset_bundle_info objs ⟨[], []⟩ = .ok st
        ∧ ∀ k, mapLookup st.map k = lastValue (allInsertions objs) k := by
  refine ⟨fun mp k v => by simp [mapLookup, mapInsert], ?_⟩
  refine ⟨⟨(allInsertions objs).reverse, allSkips objs⟩, ?_, ?_⟩
  · rw [collect_spec objs ⟨[], []⟩ hok]; simp
  · intro k
    rfl

/-- Witness for C9: two containers `c1` then `c2` both claim the table
entry whose `path_id` is `10`; the built index resolves `10` to `c2`
alone — the later insertion overwrote the earlier one. -/
theorem c9_last_insertion_wins_witness :
    ((∀ (mp : ContainerMap) (k : Int) (v : Str),
        mapLookup (mapInsert mp k v) k = some v)
      ∧ ∃ st, collect_asset_bundle_info [⟨0, .bundleObj (.ok overlapBundle)⟩] ⟨[], []⟩
          = .ok st
        ∧ ∀ k, mapLookup st.map k
            = lastValue (allInsertions [⟨0, .bundleObj (.ok overlapBundle)⟩]) k)
    ∧ collect_asset_bundle_info [⟨0, .bundleObj (.ok overlapBundle)⟩] ⟨[], []⟩
        = .ok ⟨[(10, chars "c2"), (10, chars "c1")], []⟩
    ∧ lookupContainer [(10, chars "c2"), (10, chars "c1")] 10 = chars "c2" :=
  ⟨c9_last_insertion_wins [⟨0, .bundleObj (.ok overlapBundle)⟩] (by decide),
   by rfl, by decide⟩

/-- C10: the end bound of a container's preload range is the unchecked
64-bit sum `preload_index + preload_size`: when the sum reaches
`2 ^ 64` it wraps below the start index, the iterated range is empty,
and the container contributes neither map entries nor logged-and-skipped
indices — the overflow is not handled by the out-of-range branch, which
only guards indices that fail the table lookup. -/
theorem c10_preload_end_overflow (idx size : Nat) (h1 : idx < U64) (h2 : size < U64)
    (hov : U64 ≤ idx + size) :
    (idx + size) % U64 < idx
    ∧ preloadIndices idx size = []
    ∧ ∀ (table : List PPtr) (st : BuildState) (a : PPtr) (cname : Str),
        processContainer table st (cname, ⟨a, idx, size⟩) = st := by
  have hmod : (idx + size) % U64 = idx + size - U64 := by
    rw [Nat.mod_eq_sub_mod hov, Nat.mod_eq_of_lt (by omega)]
  have hempty : preloadIndices idx size = [] := by
    unfold preloadIndices
    rw [hmod, show idx + size - U64 - idx = 0 by omega]
    rfl
  refine ⟨by omega, hempty, fun table st a cname => ?_⟩
  unfold processContainer
  rw [show (((cname, ⟨a, idx, size⟩) : Str × AssetBundleContainer)).2.preload_index
      = idx from rfl,
    show (((cname, ⟨a, idx, size⟩) : Str × AssetBundleContainer)).2.preload_size
      = size from rfl, hempty]
  rfl

/-- Witness for C10: a container claiming `preload_index = 2 ^ 64 - 1`,
`preload_size = 2` — the end bound wraps to `1`, below the start, and
processing it over a one-entry table changes nothing and logs no
skipped index. -/
theorem c10_preload_end_overflow_witness :
    (U64 - 1 + 2) % U64 < U64 - 1
    ∧ preloadIndices (U64 - 1) 2 = []
    ∧ ∀ (table : List PPtr) (st : BuildState) (a : PPtr) (cname : Str),
        processContainer table st (cname, ⟨a, U64 - 1, 2⟩) = st :=
  c10_preload_end_overflow (U64 - 1) 2 (by decide) (by decide) (by decide)

/-- C6: an `extract` invocation whose configuration file is unreadable
or unparsable prints a diagnostic and exits without an error status —
`main` returns success — and performs no work: no archive is skipped,
read, extracted or recorded. -/
theorem c6_config_error_soft_exit (e : Str) (env : ExtractEnv) (processed : List Str)
    (incremental dryRun : Bool) (stop : Nat → Bool) (archives : List Str) :
    (extractMain (.error e) env processed incremental dryRun stop archives).2 = none
    ∧ (extractMain (.error e) env processed incremental dryRun stop archives).1.logs = [e]
    ∧ (extractMain (.error e) env processed incremental dryRun stop archives).1.skips = []
    ∧ (extractMain (.error e) env processed incremental dryRun stop archives).1.reads = []
    ∧ (extractMain (.error e) env processed incremental dryRun stop archives).1.dumps = []
    ∧ (extractMain (.error e) env processed incremental dryRun stop archives).1.recorded
      = [] :=
  ⟨rfl, rfl, rfl, rfl, rfl, rfl⟩

theorem processArchive_skip (cfg : ModelConfig) (env : ExtractEnv) (processed : List Str)
    (incremental dryRun : Bool) (p : Str) (hmem : normalize p ∈ processed) :
    processArchive cfg env processed incremental dryRun p
      = ⟨[], true, false, [], false, none⟩ := by
  simp [processArchive, hmem]

theorem processArchive_fatal_not_recorded (cfg : ModelConfig) (env : ExtractEnv)
    (processed : List Str) (incremental dryRun : Bool) (p : Str) (e : Str)
    (h : (processArchive cfg env processed incremental dryRun p).err = some e) :
    (processArchive cfg env processed incremental dryRun p).recordedP = false := by
  by_cases hmem : normalize p ∈ processed
  · simp [processArchive, hmem] at h
  · cases hc : env.content p with
    | readErr e' => simp [processArchive, hmem, hc] at h
    | parseErr => simp [processArchive, hmem, hc] at h
    | loaded objs =>
      cases hcol : collect_asset_bundle_info objs ⟨[], []⟩ with
      | error e' => simp [processArchive, hmem, hc, hcol] at h
      | ok bst =>
        rcases hpo : processObjects cfg env.fs dryRun bst.map (normalize p) objs.enum
          with ⟨logs, dumps, err⟩
        cases err with
        | some e' => simp [processArchive, hmem, hc, hcol, hpo]
        | none => simp [processArchive, hmem, hc, hcol, hpo] at h

theorem runLoop_fatal_stops (cfg : ModelConfig) (env : ExtractEnv) (processed : List Str)
    (incremental dryRun : Bool) (stop : Nat → Bool) :
    ∀ (j : Nat) (paths : List Str) (k : Nat) (p e : Str),
      paths[j]? = some p →
      (∀ i, i ≤ j → stop (k + i) = false) →
      (∀ i p', i < j → paths[i]? = some p' →
        (processArchive cfg env processed incremental dryRun p').err = none) →
      (processArchive cfg env processed incremental dryRun p).err = some e →
      runLoop cfg env processed incremental dryRun stop k paths
        = runLoop cfg env processed incremental dryRun stop k (paths.take (j + 1))
      ∧ (runLoop cfg env processed incremental dryRun stop k paths).2 = some e := by
  intro j
  induction j with
  | zero =>
    intro paths k p e hget hstop hpre herr
    cases paths with
    | nil => simp at hget
    | cons q rest =>
      have hq : q = p := by simpa using hget
      subst hq
      have hs : stop k = false := by simpa using hstop 0 (Nat.le_refl 0)
      refine ⟨?_, ?_⟩ <;> simp [runLoop, hs, herr]
  | succ j ih =>
    intro paths k p e hget hstop hpre herr
    cases paths with
    | nil => simp at hget
    | cons q rest =>
      have hs : stop k = false := by simpa using hstop 0 (Nat.zero_le _)
      have hq : (processArchive cfg env processed incremental dryRun q).err = none :=
        hpre 0 q (Nat.succ_pos j) (by simp)
      obtain ⟨ih1, ih2⟩ := ih rest (k + 1) p e (by simpa using hget)
        (fun i hi => by
          have h := hstop (i + 1) (by omega)
          rwa [show k + (i + 1) = k + 1 + i by omega] at h)
        (fun i p' hi hg => hpre (i + 1) p' (by omega) (by simpa using hg))
        herr
      refine ⟨?_, ?_⟩
      · simp only [runLoop, hs, hq, List.take_succ_cons, if_false, Bool.false_eq_true]
        rw [ih1]
      · simp only [runLoop, hs, hq, if_false, Bool.false_eq_true]
        rw [ih1]
        have h2 := ih2
        rw [ih1] at h2
        cases hrl : runLoop cfg env processed incremental dryRun stop (k + 1)
            (rest.take (j + 1)) with
        | mk acc' e' =>
          rw [hrl] at h2
          simpa using h2

/-- Counterexample to C5 as stated: on a filesystem where the
destination's parent directory cannot be created, the run over archives
`a` then `b` does not treat the failure as a per-item error — `main`
returns an error, nothing is extracted, archive `a` is never recorded,
and the bytes of archive `b` are never read: processing of the
remaining work does not continue. -/
theorem c5_counterexample :
    (runLoop c5Config c5Env [] true false (fun _ => false) 0
        [chars "a", chars "b"]).2.isSome = true
    ∧ (runLoop c5Config c5Env [] true false (fun _ => false) 0
        [chars "a", chars "b"]).1.reads = [chars "a"]
    ∧ (runLoop c5Config c5Env [] true false (fun _ => false) 0
        [chars "a", chars "b"]).1.dumps = []
    ∧ (runLoop c5Config c5Env [] true false (fun _ => false) 0
        [chars "a", chars "b"]).1.recorded = [] := by
  refine ⟨?_, ?_, ?_, ?_⟩ <;> decide

/-- C5 amended: during extraction (not dry-run), a failure to *create*
the destination's parent directory is fatal to the whole run, not a
per-item error: the error propagates out of `main`, the item is not
extracted, the archive being processed is not recorded, and no later
archive is processed.  (Only the inability to *determine* a parent is
reported and extraction still attempted.) -/
theorem c5_create_dir_failure_aborts_run :
    (∀ (fs : FsEnv) (path parent : Str),
      fs.parentOf path = some parent → fs.dirExists parent = false →
      fs.createFails parent = true →
      (extractStep fs path).2.2 = some (chars "Failed to create directory: " ++ parent)
      ∧ (extractStep fs path).2.1 = [])
    ∧ (∀ (fs : FsEnv) (path : Str), fs.parentOf path = none →
      (extractStep fs path).2.2 = none ∧ path ∈ (extractStep fs path).2.1)
    ∧ (∀ (cfg : ModelConfig) (env : ExtractEnv) (processed : List Str)
        (incremental dryRun : Bool) (stop : Nat → Bool)
        (j : Nat) (paths : List Str) (k : Nat) (p e : Str),
      paths[j]? = some p →
      (∀ i, i ≤ j → stop (k + i) = false) →
      (∀ i p', i < j → paths[i]? = some p' →
        (processArchive cfg env processed incremental dryRun p').err = none) →
      (processArchive cfg env processed incremental dryRun p).err = some e →
      runLoop cfg env processed incremental dryRun stop k paths
        = runLoop cfg env processed incremental dryRun stop k (paths.take (j + 1))
      ∧ (runLoop cfg env processed incremental dryRun stop k paths).2 = some e
      ∧ (processArchive cfg env processed incremental dryRun p).recordedP = false) := by
  refine ⟨?_, ?_, ?_⟩
  · intro fs path parent hp hd hc
    constructor <;> simp [extractStep, hp, hd, hc]
  · intro fs path hp
    cases hd : fs.dumpFails path with
    | some e => constructor <;> simp [extractStep, hp, hd]
    | none => constructor <;> simp [extractStep, hp, hd]
  · intro cfg env processed incremental dryRun stop j paths k p e hget hstop hpre herr
    obtain ⟨h1, h2⟩ := runLoop_fatal_stops cfg env processed incremental dryRun stop
      j paths k p e hget hstop hpre herr
    exact ⟨h1, h2,
      processArchive_fatal_not_recorded cfg env processed incremental dryRun p e herr⟩

/-- Witness for the amended C5 at the concrete counterexample input:
creating `out` fails, so the run over `[a, b]` equals the run truncated
after `a`, `main`'s result is that error, and `a` is not recorded. -/
theorem c5_create_dir_failure_aborts_run_witness :
    ((extractStep c5Fs (chars "out/ff")).2.2
        = some (chars "Failed to create directory: " ++ chars "out")
      ∧ (extractStep c5Fs (chars "out/ff")).2.1 = [])
    ∧ (runLoop c5Config c5Env [] true false (fun _ => false) 0 [chars "a", chars "b"]
        = runLoop c5Config c5Env [] true false (fun _ => false) 0
            ([chars "a", chars "b"].take 1)
      ∧ (runLoop c5Config c5Env [] true false (fun _ => false) 0
          [chars "a", chars "b"]).2
        = some (chars "Failed to create directory: " ++ chars "out")
      ∧ (processArchive c5Config c5Env [] true false (chars "a")).recordedP = false) :=
  ⟨c5_create_dir_failure_aborts_run.1 c5Fs (chars "out/ff") (chars "out")
      (by decide) (by decide) (by decide),
   c5_create_dir_failure_aborts_run.2.2 c5Config c5Env [] true false (fun _ => false)
      0 [chars "a", chars "b"] 0 (chars "a")
      (chars "Failed to create directory: " ++ chars "out")
      (by decide)
      (fun i hi => by
        have h0 : i = 0 := Nat.le_zero.mp hi
        subst h0
        rfl)
      (fun i p' hi _ => absurd hi (Nat.not_lt_zero i))
      (by decide)⟩

theorem processArchive_recordedP (cfg : ModelConfig) (env : ExtractEnv)
    (processed : List Str) (incremental dryRun : Bool) (p : Str) :
    (processArchive cfg env processed incremental dryRun p).recordedP
      = (incremental && enumerationCompletes cfg env processed dryRun p) := by
  by_cases hmem : normalize p ∈ processed
  · simp [processArchive, enumerationCompletes, hmem]
  · cases hc : env.content p with
    | readErr e => simp [processArchive, enumerationCompletes, hmem, hc]
    | parseErr => simp [processArchive, enumerationCompletes, hmem, hc]
    | loaded objs =>
      cases hcol : collect_asset_bundle_info objs ⟨[], []⟩ with
      | error e => simp [processArchive, enumerationCompletes, hmem, hc, hcol]
      | ok bst =>
        rcases hpo : processObjects cfg env.fs dryRun bst.map (normalize p) objs.enum
          with ⟨logs, dumps, err⟩
        cases err with
        | some e => simp [processArchive, enumerationCompletes, hmem, hc, hcol, hpo]
        | none => simp [processArchive, enumerationCompletes, hmem, hc, hcol, hpo]

theorem runLoop_recorded (cfg : ModelConfig) (env : ExtractEnv) (processed : List Str)
    (incremental dryRun : Bool) (stop : Nat → Bool) :
    ∀ (paths : List Str) (k : Nat),
      (runLoop cfg env processed incremental dryRun stop k paths).1.recorded
        = recordedOf cfg env processed incremental dryRun stop k paths := by
  intro paths
  induction paths with
  | nil => intro k; rfl
  | cons q rest ih =>
    intro k
    by_cases hs : stop k = true
    · simp [runLoop, recordedOf, hs, RunAcc.empty]
    · rw [Bool.not_eq_true] at hs
      cases herr : (processArchive cfg env processed incremental dryRun q).err with
      | none => simp [runLoop, recordedOf, hs, herr, RunAcc.append, ih]
      | some e => simp [runLoop, recordedOf, hs, herr]

theorem recordedOf_mem (cfg : ModelConfig) (env : ExtractEnv) (processed : List Str)
    (incremental dryRun : Bool) (stop : Nat → Bool) :
    ∀ (paths : List Str) (k : Nat) (q : Str),
      q ∈ recordedOf cfg env processed incremental dryRun stop k paths →
      ∃ j p, paths[j]? = some p ∧ q = normalize p
        ∧ (∀ i, i ≤ j → stop (k + i) = false)
        ∧ (∀ i p', i < j → paths[i]? = some p' →
            (processArchive cfg env processed incremental dryRun p').err = none)
        ∧ (processArchive cfg env processed incremental dryRun p).recordedP = true := by
  intro paths
  induction paths with
  | nil => intro k q h; simp [recordedOf] at h
  | cons a rest ih =>
    intro k q h
    by_cases hs : stop k = true
    · simp [recordedOf, hs] at h
    · rw [Bool.not_eq_true] at hs
      rw [recordedOf] at h
      simp only [hs, Bool.false_eq_true, if_false] at h
      rcases List.mem_append.mp h with h1 | h2
      · by_cases hr : (processArchive cfg env processed incremental dryRun a).recordedP
          = true
        · have hq : q = normalize a := by
            simp only [hr, if_true] at h1
            simpa using h1
          refine ⟨0, a, by simp, hq, ?_, ?_, hr⟩
          · intro i hi
            have h0 : i = 0 := Nat.le_zero.mp hi
            subst h0
            simpa using hs
          · intro i p' hi
            exact absurd hi (Nat.not_lt_zero i)
        · rw [Bool.not_eq_true] at hr
          simp [hr] at h1
      · by_cases hf : (processArchive cfg env processed incremental dryRun a).err.isSome
          = true
        · simp [hf] at h2
        · rw [Bool.not_eq_true] at hf
          simp only [hf, Bool.false_eq_true, if_false] at h2
          obtain ⟨j, p, hget, hq, hstop, hpre, hr⟩ := ih (k + 1) q h2
          refine ⟨j + 1, p, by simpa using hget, hq, ?_, ?_, hr⟩
          · intro i hi
            cases i with
            | zero => simpa using hs
            | succ i =>
              have h := hstop i (by omega)
              rwa [show k + 1 + i = k + (i + 1) by omega] at h
          · intro i p' hi hg
            cases i with
            | zero =>
              have hp : a = p' := by simpa using hg
              subst hp
              exact Option.not_isSome_iff_eq_none.mp (by simp [hf])
            | succ i =>
              exact hpre i p' (by omega) (by simpa using hg)

theorem recordedOf_complete (cfg : ModelConfig) (env : ExtractEnv) (processed : List Str)
    (incremental dryRun : Bool) (stop : Nat → Bool) :
    ∀ (paths : List Str) (k : Nat) (j : Nat) (p : Str),
      paths[j]? = some p →
      (∀ i, i ≤ j → stop (k + i) = false) →
      (∀ i p', i < j → paths[i]? = some p' →
        (processArchive cfg env processed incremental dryRun p').err = none) →
      (processArchive cfg env processed incremental dryRun p).recordedP = true →
      normalize p ∈ recordedOf cfg env processed incremental dryRun stop k paths := by
  intro paths
  induction paths with
  | nil => intro k j p hget; simp at hget
  | cons a rest ih =>
    intro k j p hget hstop hpre hr
    have hs : stop k = false := by simpa using hstop 0 (Nat.zero_le j)
    rw [recordedOf]
    simp only [hs, Bool.false_eq_true, if_false]
    cases j with
    | zero =>
      have hp : a = p := by simpa using hget
      subst hp
      simp [hr]
    | succ j =>
      have ha : (processArchive cfg env processed incremental dryRun a).err = none :=
        hpre 0 a (Nat.succ_pos j) (by simp)
      have hmem := ih (k + 1) j p (by simpa using hget)
        (fun i hi => by
          have h := hstop (i + 1) (by omega)
          rwa [show k + (i + 1) = k + 1 + i by omega] at h)
        (fun i p' hi hg => hpre (i + 1) p' (by omega) (by simpa using hg))
        hr
      simp [ha, hmem]

/-- C3: progress recording and interruption.  (a) What the archive loop
records is exactly `recordedOf`, the per-run closed form.  (b) An
archive's path is appended exactly when `incremental` is set and its
item enumeration runs to completion in this run — there is no partial
record.  (c) Every recorded path comes from an archive at a loop index
before which (inclusive) the interruption signal was never observed and
before which no fatal error occurred, whose enumeration completed —
so an archive at or past the index where the signal is observed is
never recorded.  (d) Conversely, an archive whose enumeration completes
and that the loop reaches — no earlier signal observation, no earlier
fatal archive — stays recorded even if a signal arrives later. -/
theorem c3_interruption_progress (cfg : ModelConfig) (env : ExtractEnv)
    (processed : List Str) (incremental dryRun : Bool) (stop : Nat → Bool)
    (paths : List Str) (k : Nat) :
    ((runLoop cfg env processed incremental dryRun stop k paths).1.recorded
      = recordedOf cfg env processed incremental dryRun stop k paths)
    ∧ (∀ p, (processArchive cfg env processed incremental dryRun p).recordedP
        = (incremental && enumerationCompletes cfg env processed dryRun p))
    ∧ (∀ q, q ∈ recordedOf cfg env processed incremental dryRun stop k paths →
        ∃ j p, paths[j]? = some p ∧ q = normalize p
          ∧ (∀ i, i ≤ j → stop (k + i) = false)
          ∧ (∀ i p', i < j → paths[i]? = some p' →
              (processArchive cfg env processed incremental dryRun p').err = none)
          ∧ (processArchive cfg env processed incremental dryRun p).recordedP = true)
    ∧ (∀ j p, paths[j]? = some p →
        (∀ i, i ≤ j → stop (k + i) = false) →
        (∀ i p', i < j → paths[i]? = some p' →
          (processArchive cfg env processed incremental dryRun p').err = none) →
        (processArchive cfg env processed incremental dryRun p).recordedP = true →
        normalize p ∈ recordedOf cfg env processed incremental dryRun stop k paths) :=
  ⟨runLoop_recorded cfg env processed incremental dryRun stop paths k,
   fun p => processArchive_recordedP cfg env processed incremental dryRun p,
   recordedOf_mem cfg env processed incremental dryRun stop paths k,
   recordedOf_complete cfg env processed incremental dryRun stop paths k⟩

/-- Witness for C3 at a concrete two-archive run interrupted at loop
index 1: archive `a` (completed before the signal) is recorded; the
loop records exactly `[a]`, so archive `b`, not yet started when the
signal was observed, is never recorded. -/
theorem c3_interruption_progress_witness :
    ((runLoop emptyConfig trivialEnv [] true false (fun k => k == 1) 0
        [chars "a", chars "b"]).1.recorded
      = recordedOf emptyConfig trivialEnv [] true false (fun k => k == 1) 0
          [chars "a", chars "b"])
    ∧ normalize (chars "a")
        ∈ recordedOf emptyConfig trivialEnv [] true false (fun k => k == 1) 0
            [chars "a", chars "b"]
    ∧ recordedOf emptyConfig trivialEnv [] true false (fun k => k == 1) 0
        [chars "a", chars "b"] = [chars "a"] :=
  ⟨(c3_interruption_progress emptyConfig trivialEnv [] true false (fun k => k == 1)
      [chars "a", chars "b"] 0).1,
   (c3_interruption_progress emptyConfig trivialEnv [] true false (fun k => k == 1)
      [chars "a", chars "b"] 0).2.2.2 0 (chars "a") (by decide)
      (fun i hi => by
        have h0 : i = 0 := Nat.le_zero.mp hi
        subst h0
        rfl)
      (fun i p' hi _ => absurd hi (Nat.not_lt_zero i))
      (by decide),
   by decide⟩

theorem flatMap_congr_mem {α β : Type} (f g : α → List β) :
    ∀ (l : List α), (∀ x ∈ l, f x = g x) → l.flatMap f = l.flatMap g := by
  intro l
  induction l with
  | nil => intro _; rfl
  | cons a l ih =>
    intro h
    simp only [List.flatMap_cons]
    rw [h a (by simp), ih (fun x hx => h x (by simp [hx]))]

theorem flatMap_singleton_eq_map {α β : Type} (f : α → β) :
    ∀ (l : List α), (l.flatMap (fun x => [f x])) = l.map f := by
  intro l
  induction l with
  | nil => rfl
  | cons a l ih => simp only [List.flatMap_cons, List.map_cons, ih]; rfl

theorem flatMap_nil_fun {α β : Type} :
    ∀ (l : List α), (l.flatMap (fun _ => ([] : List β))) = [] := by
  intro l
  induction l with
  | nil => rfl
  | cons a l ih => simp only [List.flatMap_cons, ih]; rfl

theorem processArchive_recorded_no_err (cfg : ModelConfig) (env : ExtractEnv)
    (processed : List Str) (incremental dryRun : Bool) (p : Str)
    (h : (processArchive cfg env processed incremental dryRun p).recordedP = true) :
    (processArchive cfg env processed incremental dryRun p).err = none := by
  by_cases hmem : normalize p ∈ processed
  · simp [processArchive, hmem]
  · cases hc : env.content p with
    | readErr e => simp [processArchive, hmem, hc]
    | parseErr => simp [processArchive, hmem, hc]
    | loaded objs =>
      cases hcol : collect_asset_bundle_info objs ⟨[], []⟩ with
      | error e => simp [processArchive, hmem, hc, hcol]
      | ok bst =>
        rcases hpo : processObjects cfg env.fs dryRun bst.map (normalize p) objs.enum
          with ⟨logs, dumps, err⟩
        cases err with
        | some e => simp [processArchive, hmem, hc, hcol, hpo] at h
        | none => simp [processArchive, hmem, hc, hcol, hpo]

theorem runLoop_no_stop (cfg : ModelConfig) (env : ExtractEnv) (processed : List Str)
    (incremental dryRun : Bool) :
    ∀ (paths : List Str) (k : Nat),
      (∀ p ∈ paths,
        (processArchive cfg env processed incremental dryRun p).err = none) →
      (runLoop cfg env processed incremental dryRun (fun _ => false) k paths).2 = none
      ∧ (runLoop cfg env processed incremental dryRun (fun _ => false) k paths).1.recorded
        = paths.flatMap (fun p =>
            if (processArchive cfg env processed incremental dryRun p).recordedP
            then [normalize p] else [])
      ∧ (runLoop cfg env processed incremental dryRun (fun _ => false) k paths).1.skips
        = paths.flatMap (fun p =>
            if (processArchive cfg env processed incremental dryRun p).skipped
            then [normalize p] else [])
      ∧ (runLoop cfg env processed incremental dryRun (fun _ => false) k paths).1.reads
        = paths.flatMap (fun p =>
            if (processArchive cfg env processed incremental dryRun p).readAttempt
            then [normalize p] else [])
      ∧ (runLoop cfg env processed incremental dryRun (fun _ => false) k paths).1.dumps
        = paths.flatMap (fun p =>
            (processArchive cfg env processed incremental dryRun p).dumps) := by
  intro paths
  induction paths with
  | nil =>
    intro k _
    exact ⟨rfl, rfl, rfl, rfl, rfl⟩
  | cons q rest ih =>
    intro k h
    have hq : (processArchive cfg env processed incremental dryRun q).err = none :=
      h q (List.mem_cons_self q rest)
    obtain ⟨ih1, ih2, ih3, ih4, ih5⟩ :=
      ih (k + 1) (fun p hp => h p (List.mem_cons_of_mem q hp))
    refine ⟨?_, ?_, ?_, ?_, ?_⟩ <;>
      simp [runLoop, hq, RunAcc.append, ih1, ih2, ih3, ih4, ih5]

/-- C4: running `extract --incremental` a second time over the same
unchanged inputs, when the first uninterrupted run left every archive
either already in the progress store or recorded, performs no
extraction work: the second run reports every archive — in particular
every archive the first run recorded — as skipped, reads no archive's
bytes, hands nothing to `dump_asset` (so it creates no output files),
records nothing new, and exits successfully. -/
theorem c4_second_run_all_skipped (cfg : ModelConfig) (env : ExtractEnv)
    (processed₀ : List Str) (dryRun : Bool) (archives : List Str)
    (hall : ∀ p ∈ archives,
      normalize p ∈ processed₀
      ∨ (processArchive cfg env processed₀ true dryRun p).recordedP = true) :
    (runLoop cfg env
        (processed₀ ++ (runLoop cfg env processed₀ true dryRun (fun _ => false) 0
            archives).1.recorded)
        true dryRun (fun _ => false) 0 archives).1.skips
      = archives.map normalize
    ∧ (runLoop cfg env
        (processed₀ ++ (runLoop cfg env processed₀ true dryRun (fun _ => false) 0
            archives).1.recorded)
        true dryRun (fun _ => false) 0 archives).1.reads = []
    ∧ (runLoop cfg env
        (processed₀ ++ (runLoop cfg env processed₀ true dryRun (fun _ => false) 0
            archives).1.recorded)
        true dryRun (fun _ => false) 0 archives).1.dumps = []
    ∧ (runLoop cfg env
        (processed₀ ++ (runLoop cfg env processed₀ true dryRun (fun _ => false) 0
            archives).1.recorded)
        true dryRun (fun _ => false) 0 archives).1.recorded = []
    ∧ (runLoop cfg env
        (processed₀ ++ (runLoop cfg env processed₀ true dryRun (fun _ => false) 0
            archives).1.recorded)
        true dryRun (fun _ => false) 0 archives).2 = none := by
  have herr₀ : ∀ p ∈ archives,
      (processArchive cfg env processed₀ true dryRun p).err = none := by
    intro p hp
    rcases hall p hp with hmem | hrec
    · rw [processArchive_skip cfg env processed₀ true dryRun p hmem]
    · exact processArchive_recorded_no_err cfg env processed₀ true dryRun p hrec
  obtain ⟨-, hrec1, -, -, -⟩ :=
    runLoop_no_stop cfg env processed₀ true dryRun archives 0 herr₀
  have hmem₁ : ∀ p ∈ archives,
      normalize p ∈ processed₀
        ++ (runLoop cfg env processed₀ true dryRun (fun _ => false) 0
              archives).1.recorded := by
    intro p hp
    rcases hall p hp with hmem | hrec
    · exact List.mem_append_left _ hmem
    · refine List.mem_append_right _ ?_
      rw [hrec1]
      exact List.mem_flatMap.mpr ⟨p, hp, by simp [hrec]⟩
  have hskip₁ : ∀ p ∈ archives,
      processArchive cfg env
          (processed₀ ++ (runLoop cfg env processed₀ true dryRun (fun _ => false) 0
              archives).1.recorded)
          true dryRun p
        = ⟨[], true, false, [], false, none⟩ :=
    fun p hp => processArchive_skip cfg env _ true dryRun p (hmem₁ p hp)
  have herr₁ : ∀ p ∈ archives,
      (processArchive cfg env
          (processed₀ ++ (runLoop cfg env processed₀ true dryRun (fun _ => false) 0
              archives).1.recorded)
          true dryRun p).err = none := by
    intro p hp
    rw [hskip₁ p hp]
  obtain ⟨h2err, h2rec, h2skip, h2read, h2dump⟩ :=
    runLoop_no_stop cfg env _ true dryRun archives 0 herr₁
  refine ⟨?_, ?_, ?_, ?_, h2err⟩
  · rw [h2skip, flatMap_congr_mem _ (fun p => [normalize p]) archives
      (fun p hp => by simp [hskip₁ p hp]),
      flatMap_singleton_eq_map]
  · rw [h2read, flatMap_congr_mem _ (fun _ => []) archives
      (fun p hp => by simp [hskip₁ p hp]),
      flatMap_nil_fun]
  · rw [h2dump, flatMap_congr_mem _ (fun _ => []) archives
      (fun p hp => by simp [hskip₁ p hp]),
      flatMap_nil_fun]
  · rw [h2rec, flatMap_congr_mem _ (fun _ => []) archives
      (fun p hp => by simp [hskip₁ p hp]),
      flatMap_nil_fun]

/-- Witness for C4: over the single archive `a` (which the first run
records), the second incremental run skips `a`, reads nothing, dumps
nothing, records nothing and exits successfully. -/
theorem c4_second_run_all_skipped_witness :
    (runLoop emptyConfig trivialEnv
        ([] ++ (runLoop emptyConfig trivialEnv [] true false (fun _ => false) 0
            [chars "a"]).1.recorded)
        true false (fun _ => false) 0 [chars "a"]).1.skips
      = [chars "a"].map normalize
    ∧ (runLoop emptyConfig trivialEnv
        ([] ++ (runLoop emptyConfig trivialEnv [] true false (fun _ => false) 0
            [chars "a"]).1.recorded)
        true false (fun _ => false) 0 [chars "a"]).1.reads = []
    ∧ (runLoop emptyConfig trivialEnv
        ([] ++ (runLoop emptyConfig trivialEnv [] true false (fun _ => false) 0
            [chars "a"]).1.recorded)
        true false (fun _ => false) 0 [chars "a"]).1.dumps = []
    ∧ (runLoop emptyConfig trivialEnv
        ([] ++ (runLoop emptyConfig trivialEnv [] true false (fun _ => false) 0
            [chars "a"]).1.recorded)
        true false (fun _ => false) 0 [chars "a"]).1.recorded = []
    ∧ (runLoop emptyConfig trivialEnv
        ([] ++ (runLoop emptyConfig trivialEnv [] true false (fun _ => false) 0
            [chars "a"]).1.recorded)
        true false (fun _ => false) 0 [chars "a"]).2 = none :=
  c4_second_run_all_skipped emptyConfig trivialEnv [] false [chars "a"] (by decide)


end Uabx
